import Mathlib

/-!
Shallow embedding of two Advent-of-Code 2022 puzzle solvers
(`day01.py` and `day04.py`) and proofs of specification claims
about them.

Python strings are modelled as `List Char`; Python `set` of `int`
as `Finset ℤ`; fallible operations (`int(...)`, tuple unpacking)
as `Option`-valued functions.
-/

namespace AoC2022

/-! ### Python string primitives -/

/-- `s.split(sep)` for a single-character separator: split on every
occurrence, keeping empty fields. -/
def splitOnChar (sep : Char) : List Char → List (List Char)
  | [] => [[]]
  | c :: rest =>
    if c = sep then [] :: splitOnChar sep rest
    else
      match splitOnChar sep rest with
      | [] => [[c]]
      | g :: gs => (c :: g) :: gs

/-- `s.split("\n\n")`: split on each leftmost non-overlapping occurrence
of two consecutive newline characters, keeping empty fields. -/
def splitOnNN : List Char → List (List Char)
  | '\n' :: '\n' :: rest => [] :: splitOnNN rest
  | c :: rest =>
    match splitOnNN rest with
    | [] => [[c]]
    | g :: gs => (c :: g) :: gs
  | [] => [[]]

/-- `s.strip()`: remove leading and trailing whitespace. -/
def pyStrip (cs : List Char) : List Char :=
  ((cs.dropWhile Char.isWhitespace).reverse.dropWhile Char.isWhitespace).reverse

/-- Value of a run of decimal digit characters. -/
def pyDigitsVal (cs : List Char) : Nat :=
  cs.foldl (fun acc c => 10 * acc + (c.toNat - 48)) 0

/-- Python `int(s)`: strip whitespace, then an optional sign followed by a
non-empty run of decimal digits; any other shape raises `ValueError`
(modelled as `none`). -/
def pyInt (s : List Char) : Option Int :=
  match pyStrip s with
  | '-' :: rest =>
    if rest ≠ [] ∧ rest.all Char.isDigit then some (-(pyDigitsVal rest : Int)) else none
  | '+' :: rest =>
    if rest ≠ [] ∧ rest.all Char.isDigit then some ((pyDigitsVal rest : Int)) else none
  | cs =>
    if cs ≠ [] ∧ cs.all Char.isDigit then some ((pyDigitsVal cs : Int)) else none

/-! ### day01.py -/

/-- `most_calories`: `max(sum(cal for cal in inventory) for inventory in
inventories)`.  Python `max` raises `ValueError` on an empty iterable,
modelled as `none`. -/
def most_calories (inventories : List (List Int)) : Option Int :=
  match inventories.map (fun inventory => inventory.sum) with
  | [] => none
  | s :: rest => some (rest.foldl max s)

/-- `sum_of_top_three_calories`: sum each inventory, sort the sums in
descending order, and sum the first three (or fewer). -/
def sum_of_top_three_calories (inventories : List (List Int)) : Int :=
  let sums : List Int := inventories.map (fun inventory => inventory.sum)
  (((sums.mergeSort (fun a b => decide (b ≤ a))).take 3).sum)

/-- `parse_inventories`: split the whole input on `"\n\n"`, and for each
group strip it, split it on `"\n"`, and parse every line with `int`. -/
def parse_inventories (text : List Char) : Option (List (List Int)) :=
  (splitOnNN text).mapM
    (fun inventory => (splitOnChar '\n' (pyStrip inventory)).mapM pyInt)

/-! ### day04.py -/

/-- `one_fully_contains_the_other`: `a.issubset(b) or b.issubset(a)`. -/
def one_fully_contains_the_other (a b : Finset ℤ) : Bool :=
  decide (a ⊆ b) || decide (b ⊆ a)

/-- `one_overlaps_the_other`: `not a.isdisjoint(b)`. -/
def one_overlaps_the_other (a b : Finset ℤ) : Bool :=
  !(decide (a ∩ b = ∅))

/-- `count_fully_overlapping_assignments`: number of pairs where one
fully contains the other. -/
def count_fully_overlapping_assignments
    (assignments : List (Finset ℤ × Finset ℤ)) : Nat :=
  (assignments.map
    (fun p => if one_fully_contains_the_other p.1 p.2 then 1 else 0)).sum

/-- `count_overlapping_assignments`: number of pairs that overlap. -/
def count_overlapping_assignments
    (assignments : List (Finset ℤ × Finset ℤ)) : Nat :=
  (assignments.map
    (fun p => if one_overlaps_the_other p.1 p.2 then 1 else 0)).sum

/-- `_str_to_assignment`: `start, end = map(int, s.split("-"))` followed by
`set(range(start, end + 1))`.  Unpacking fails unless the split yields
exactly two fields, and `int` may fail on either field. -/
def _str_to_assignment (s : List Char) : Option (Finset ℤ) :=
  match splitOnChar '-' s with
  | [a, b] =>
    match pyInt a, pyInt b with
    | some start, some «end» => some (Finset.Icc start «end»)
    | _, _ => none
  | _ => none

/-- `_str_to_assignments_list`: `a, b, *_ = line.strip().split(",")`
followed by `(_str_to_assignment(a), _str_to_assignment(b))`.  Unpacking
fails when the split yields fewer than two fields; extra fields are
discarded. -/
def _str_to_assignments_list (line : List Char) : Option (Finset ℤ × Finset ℤ) :=
  match splitOnChar ',' (pyStrip line) with
  | a :: b :: _ =>
    match _str_to_assignment a, _str_to_assignment b with
    | some x, some y => some (x, y)
    | _, _ => none
  | _ => none

/-- `parse_section_assignments`: apply `_str_to_assignments_list` to every
input line, in order; any failure aborts the whole parse. -/
def parse_section_assignments (lines : List (List Char)) :
    Option (List (Finset ℤ × Finset ℤ)) :=
  lines.mapM _str_to_assignments_list

/-! ### Spec-side generators -/

/-- Decimal digits of a natural number, accumulator-passing, with explicit
fuel so that the definition is structurally recursive. -/
def renderNatCore : Nat → Nat → List Char → List Char
  | 0, _, acc => acc
  | fuel + 1, n, acc =>
    if n < 10 then Nat.digitChar n :: acc
    else renderNatCore fuel (n / 10) (Nat.digitChar (n % 10) :: acc)

/-- The decimal rendering of a natural number, as Python `str` would
produce it. -/
def renderNat (n : Nat) : List Char :=
  renderNatCore (n + 1) n []

/-- The decimal rendering of an integer: a leading `-` for negative
numbers, then the decimal digits. -/
def renderInt (s : Int) : List Char :=
  if s < 0 then '-' :: renderNat s.natAbs else renderNat s.toNat

/-! ### Helper lemmas: `Option`-valued `mapM` -/

lemma mapM_option_none_of_mem {α β : Type} (f : α → Option β) :
    ∀ (l : List α), ∀ a ∈ l, f a = none → l.mapM f = none := by
  intro l
  rw [← List.mapM'_eq_mapM]
  induction l with
  | nil => intro a ha; exact absurd ha (List.not_mem_nil a)
  | cons b t ih =>
    intro a ha hfa
    rcases List.mem_cons.mp ha with h | h
    · subst h; simp [List.mapM', hfa]
    · cases hfb : f b <;> simp [List.mapM', hfb, ih a h hfa]

lemma mapM_option_some_spec {α β : Type} (f : α → Option β) :
    ∀ (l : List α) (r : List β), l.mapM f = some r →
      r.length = l.length ∧
      ∀ i (hi : i < l.length) (hri : i < r.length),
        f (l.get ⟨i, hi⟩) = some (r.get ⟨i, hri⟩) := by
  intro l
  rw [← List.mapM'_eq_mapM]
  induction l with
  | nil =>
    intro r hr
    simp [List.mapM'] at hr
    subst hr
    exact ⟨rfl, fun i hi => absurd hi (Nat.not_lt_zero i)⟩
  | cons b t ih =>
    intro r hr
    simp only [List.mapM'] at hr
    cases hfb : f b with
    | none => simp [hfb] at hr
    | some y =>
      rw [hfb] at hr
      cases hmt : t.mapM' f with
      | none => simp [hmt] at hr
      | some ys =>
        rw [hmt] at hr
        simp only [Option.pure_def, Option.bind_eq_bind, Option.some_bind,
          Option.some.injEq] at hr
        subst hr
        obtain ⟨hlen, hget⟩ := ih ys hmt
        refine ⟨by simpa using hlen, ?_⟩
        intro i hi hri
        cases i with
        | zero => simpa using hfb
        | succ j =>
          simpa using hget j (by simpa using hi) (by simpa using hri)

/-! ### Concrete inputs used by the claims -/

/-- The six example input lines of day 4, exactly as the program would
iterate them from the input stream (each with its trailing newline). -/
def day04ExampleLines : List (List Char) :=
  ["2-4,6-8\n", "2-3,4-5\n", "5-7,7-9\n", "2-8,3-7\n", "6-6,4-6\n",
   "2-6,4-8\n"].map String.toList

/-! ### Claims -/

/-- C1: parsing the six example lines `2-4,6-8`, `2-3,4-5`, `5-7,7-9`,
`2-8,3-7`, `6-6,4-6`, `2-6,4-8` with `parse_section_assignments` and then
applying `count_fully_overlapping_assignments` returns 2 and applying
`count_overlapping_assignments` returns 4. -/
theorem claim_C1 :
    (parse_section_assignments day04ExampleLines).map
      count_fully_overlapping_assignments = some 2 ∧
    (parse_section_assignments day04ExampleLines).map
      count_overlapping_assignments = some 4 := by
  constructor <;> decide

/-- C4: `one_fully_contains_the_other` and `one_overlaps_the_other` are
symmetric in their two arguments. -/
theorem claim_C4 (a b : Finset ℤ) :
    one_fully_contains_the_other a b = one_fully_contains_the_other b a ∧
    one_overlaps_the_other a b = one_overlaps_the_other b a := by
  constructor
  · simp [one_fully_contains_the_other, Bool.or_comm]
  · simp [one_overlaps_the_other, Finset.inter_comm a b]

/-- A pair with both components non-empty that satisfies
`one_fully_contains_the_other` also satisfies `one_overlaps_the_other`. -/
lemma overlap_of_contains {a b : Finset ℤ} (ha : a ≠ ∅) (hb : b ≠ ∅)
    (h : one_fully_contains_the_other a b = true) :
    one_overlaps_the_other a b = true := by
  simp only [one_fully_contains_the_other, Bool.or_eq_true, decide_eq_true_eq] at h
  simp only [one_overlaps_the_other, Bool.not_eq_true', decide_eq_false_iff_not]
  rcases h with h | h
  · obtain ⟨x, hx⟩ := Finset.nonempty_iff_ne_empty.mpr ha
    exact Finset.nonempty_iff_ne_empty.mp
      ⟨x, Finset.mem_inter.mpr ⟨hx, h hx⟩⟩
  · obtain ⟨x, hx⟩ := Finset.nonempty_iff_ne_empty.mpr hb
    exact Finset.nonempty_iff_ne_empty.mp
      ⟨x, Finset.mem_inter.mpr ⟨h hx, hx⟩⟩

lemma count_fully_cons (p : Finset ℤ × Finset ℤ) (t : List (Finset ℤ × Finset ℤ)) :
    count_fully_overlapping_assignments (p :: t) =
      (if one_fully_contains_the_other p.1 p.2 then 1 else 0) +
        count_fully_overlapping_assignments t := by
  simp [count_fully_overlapping_assignments]

lemma count_overlap_cons (p : Finset ℤ × Finset ℤ) (t : List (Finset ℤ × Finset ℤ)) :
    count_overlapping_assignments (p :: t) =
      (if one_overlaps_the_other p.1 p.2 then 1 else 0) +
        count_overlapping_assignments t := by
  simp [count_overlapping_assignments]

/-- C10 (amended): the empty set is fully contained in every set but
overlaps none; an inverted range (start > end) materializes as the empty
set, as the parse of the line field `6-4` shows; a pair whose first
component is empty is counted by `count_fully_overlapping_assignments`
but not by `count_overlapping_assignments`; and
`count_fully_overlapping_assignments ≤ count_overlapping_assignments`
holds for every list whose pairs contain no empty set. -/
theorem claim_C10 :
    (∀ b : Finset ℤ,
       one_fully_contains_the_other ∅ b = true ∧
       one_overlaps_the_other ∅ b = false) ∧
    (∀ s e : ℤ, e < s → Finset.Icc s e = ∅) ∧
    (_str_to_assignment ("6-4".toList) = some (∅ : Finset ℤ)) ∧
    (∀ (b : Finset ℤ) (l : List (Finset ℤ × Finset ℤ)),
       count_fully_overlapping_assignments ((∅, b) :: l) =
         1 + count_fully_overlapping_assignments l ∧
       count_overlapping_assignments ((∅, b) :: l) =
         count_overlapping_assignments l) ∧
    (∀ l : List (Finset ℤ × Finset ℤ),
       (∀ p ∈ l, p.1 ≠ ∅ ∧ p.2 ≠ ∅) →
       count_fully_overlapping_assignments l ≤
         count_overlapping_assignments l) := by
  refine ⟨?_, ?_, ?_, ?_, ?_⟩
  · intro b
    constructor
    · simp [one_fully_contains_the_other, Finset.empty_subset]
    · simp [one_overlaps_the_other, Finset.empty_inter]
  · intro s e h
    exact Finset.Icc_eq_empty (by omega)
  · decide
  · intro b l
    constructor
    · rw [count_fully_cons]
      simp [one_fully_contains_the_other, Finset.empty_subset]
    · rw [count_overlap_cons]
      simp [one_overlaps_the_other, Finset.empty_inter]
  · intro l
    induction l with
    | nil => intro _; exact Nat.le_refl 0
    | cons p t ih =>
      intro h
      rw [count_fully_cons, count_overlap_cons]
      have hp := h p (List.mem_cons_self p t)
      have ht := ih (fun q hq => h q (List.mem_cons_of_mem p hq))
      cases hff : one_fully_contains_the_other p.1 p.2 with
      | false =>
        cases hov : one_overlaps_the_other p.1 p.2 <;> simp <;> omega
      | true =>
        have hov := overlap_of_contains hp.1 hp.2 hff
        rw [hov]
        simp
        omega

/-- C10 counterexample to the claim's final clause: a list whose first
pair contains the empty set, yet on which the inequality
`count_fully_overlapping_assignments ≤ count_overlapping_assignments`
still holds (both counts are 1), so the inequality does not hold *only*
for lists free of empty sets. -/
theorem claim_C10_counterexample :
    count_fully_overlapping_assignments
      [((∅ : Finset ℤ), ({1} : Finset ℤ)), ({1, 2}, {2, 3})] = 1 ∧
    count_overlapping_assignments
      [((∅ : Finset ℤ), ({1} : Finset ℤ)), ({1, 2}, {2, 3})] = 1 := by
  constructor <;> decide

/-- C10 witness: the amended theorem applied at concrete inputs. -/
theorem claim_C10_witness :
    Finset.Icc (6 : ℤ) 4 = ∅ ∧
    count_fully_overlapping_assignments [(({1} : Finset ℤ), ({1, 2} : Finset ℤ))] ≤
      count_overlapping_assignments [(({1} : Finset ℤ), ({1, 2} : Finset ℤ))] :=
  ⟨claim_C10.2.1 6 4 (by norm_num),
   claim_C10.2.2.2.2 [({1}, {1, 2})] (by decide)⟩

/-- The left fold of `max` over a list is an upper bound of the starting
value and of every element, and is either the starting value or an
element. -/
lemma foldl_max_spec : ∀ (xs : List Int) (x : Int),
    x ≤ xs.foldl max x ∧ (∀ y ∈ xs, y ≤ xs.foldl max x) ∧
    (xs.foldl max x = x ∨ xs.foldl max x ∈ xs) := by
  intro xs
  induction xs with
  | nil =>
    intro x
    exact ⟨le_refl x, by simp, Or.inl rfl⟩
  | cons b t ih =>
    intro x
    simp only [List.foldl_cons]
    obtain ⟨h1, h2, h3⟩ := ih (max x b)
    refine ⟨le_trans (le_max_left x b) h1, ?_, ?_⟩
    · intro y hy
      rcases List.mem_cons.mp hy with h | h
      · rw [h]; exact le_trans (le_max_right x b) h1
      · exact h2 y h
    · rcases h3 with h | h
      · rcases max_choice x b with hc | hc
        · left; rw [h, hc]
        · right; rw [h, hc]; exact List.mem_cons_self b t
      · right; exact List.mem_cons_of_mem b h

/-- Characterization of `most_calories`: it is `none` exactly on the empty
inventory list, and any returned value is one of the per-inventory sums
and an upper bound of all of them. -/
lemma most_calories_spec (inventories : List (List Int)) :
    (most_calories inventories = none ↔ inventories = []) ∧
    ∀ m, most_calories inventories = some m →
      m ∈ inventories.map (fun inv => inv.sum) ∧
      ∀ inv ∈ inventories, inv.sum ≤ m := by
  cases inventories with
  | nil => simp [most_calories]
  | cons a t =>
    constructor
    · simp [most_calories]
    · intro m hm
      simp only [most_calories, List.map_cons, Option.some.injEq] at hm
      obtain ⟨h1, h2, h3⟩ := foldl_max_spec (t.map (fun inv => inv.sum)) a.sum
      subst hm
      constructor
      · rw [List.map_cons]
        rcases h3 with h | h
        · rw [h]; exact List.mem_cons_self _ _
        · exact List.mem_cons_of_mem _ h
      · intro inv hinv
        rcases List.mem_cons.mp hinv with h | h
        · subst h; exact h1
        · exact h2 inv.sum (List.mem_map_of_mem (fun inv => inv.sum) h)

/-- C2: for every non-empty inventory list, `most_calories` returns the
maximum of the per-inventory sums (a value that is one of the sums and at
least every sum); it returns `none` exactly when the list is empty. -/
theorem claim_C2 (inventories : List (List Int)) :
    (most_calories inventories = none ↔ inventories = []) ∧
    (inventories ≠ [] →
      ∃ m, most_calories inventories = some m ∧
        m ∈ inventories.map (fun inv => inv.sum) ∧
        ∀ inv ∈ inventories, inv.sum ≤ m) := by
  obtain ⟨hnone, hsome⟩ := most_calories_spec inventories
  refine ⟨hnone, ?_⟩
  intro hne
  cases hm : most_calories inventories with
  | none => exact absurd (hnone.mp hm) hne
  | some m =>
    obtain ⟨hmem, hub⟩ := hsome m hm
    exact ⟨m, rfl, hmem, hub⟩

/-- C2 witness: on the five example inventories, `most_calories` returns
24000, which is one of the sums and an upper bound of all of them. -/
theorem claim_C2_witness :
    ([[1000, 2000, 3000], [4000], [5000, 6000], [7000, 8000, 9000],
      [10000]] : List (List Int)) ≠ [] ∧
    ∃ m, most_calories
        [[1000, 2000, 3000], [4000], [5000, 6000], [7000, 8000, 9000],
         [10000]] = some m ∧
      m ∈ ([[1000, 2000, 3000], [4000], [5000, 6000], [7000, 8000, 9000],
            [10000]] : List (List Int)).map (fun inv => inv.sum) ∧
      ∀ inv ∈ ([[1000, 2000, 3000], [4000], [5000, 6000],
                [7000, 8000, 9000], [10000]] : List (List Int)),
        inv.sum ≤ m :=
  ⟨by decide,
   (claim_C2 [[1000, 2000, 3000], [4000], [5000, 6000], [7000, 8000, 9000],
              [10000]]).2 (by decide)⟩

/-- C9: `most_calories` is invariant under permuting a non-empty
inventory list. -/
theorem claim_C9 (inventories permuted : List (List Int))
    (hne : inventories ≠ []) (hperm : inventories.Perm permuted) :
    most_calories permuted = most_calories inventories := by
  obtain ⟨hnone, hsome⟩ := most_calories_spec inventories
  obtain ⟨hnone', hsome'⟩ := most_calories_spec permuted
  have hne' : permuted ≠ [] := by
    intro h
    subst h
    exact hne (List.Perm.eq_nil hperm)
  cases hm : most_calories inventories with
  | none => exact absurd (hnone.mp hm) hne
  | some m =>
    cases hm' : most_calories permuted with
    | none => exact absurd (hnone'.mp hm') hne'
    | some m' =>
      obtain ⟨hmem, hub⟩ := hsome m hm
      obtain ⟨hmem', hub'⟩ := hsome' m' hm'
      have hmapperm := hperm.map (fun inv => inv.sum)
      congr 1
      obtain ⟨inv', hinv', hsum'⟩ := List.mem_map.mp (hmapperm.mem_iff.mpr hmem')
      obtain ⟨inv, hinv, hsum⟩ := List.mem_map.mp (hmapperm.mem_iff.mp hmem)
      exact le_antisymm (hsum' ▸ hub inv' hinv') (hsum ▸ hub' inv hinv)

/-- C9 witness: a concrete permutation of a non-empty list. -/
theorem claim_C9_witness :
    most_calories [[4000], [1000, 2000, 3000]] =
      most_calories [[1000, 2000, 3000], [4000]] :=
  claim_C9 [[1000, 2000, 3000], [4000]] [[4000], [1000, 2000, 3000]]
    (by decide) (List.Perm.swap _ _ _)

/-- C3: `sum_of_top_three_calories` returns the sum of a block of
`min 3 n` per-inventory sums each at least as large as every remaining
sum; with fewer than three inventories it returns the sum of all
per-inventory sums, and on the empty list it returns 0. -/
theorem claim_C3 (inventories : List (List Int)) :
    (∃ big rest,
      (inventories.map (fun inv => inv.sum)).Perm (big ++ rest) ∧
      big.length = min 3 inventories.length ∧
      (∀ x ∈ big, ∀ y ∈ rest, y ≤ x) ∧
      sum_of_top_three_calories inventories = big.sum) ∧
    (inventories.length < 3 →
      sum_of_top_three_calories inventories =
        (inventories.map (fun inv => inv.sum)).sum) ∧
    (inventories = [] → sum_of_top_three_calories inventories = 0) := by
  have htrans : ∀ a b c : Int, decide (b ≤ a) = true → decide (c ≤ b) = true →
      decide (c ≤ a) = true := by
    intro a b c hab hbc
    simp only [decide_eq_true_eq] at hab hbc ⊢
    omega
  have htotal : ∀ a b : Int, (decide (b ≤ a) || decide (a ≤ b)) = true := by
    intro a b
    rcases le_total a b with h | h <;> simp [h]
  have hperm : (inventories.map (fun inv => inv.sum)).Perm
      ((inventories.map (fun inv => inv.sum)).mergeSort
        (fun a b => decide (b ≤ a))) :=
    (List.mergeSort_perm _ _).symm
  have hlen : ((inventories.map (fun inv => inv.sum)).mergeSort
      (fun a b => decide (b ≤ a))).length = inventories.length := by
    rw [List.length_mergeSort, List.length_map]
  have hpw := @List.sorted_mergeSort Int (fun a b => decide (b ≤ a))
    htrans htotal (inventories.map (fun inv => inv.sum))
  have hsum3 : sum_of_top_three_calories inventories =
      (((inventories.map (fun inv => inv.sum)).mergeSort
        (fun a b => decide (b ≤ a))).take 3).sum := rfl
  refine ⟨⟨((inventories.map (fun inv => inv.sum)).mergeSort
            (fun a b => decide (b ≤ a))).take 3,
           ((inventories.map (fun inv => inv.sum)).mergeSort
            (fun a b => decide (b ≤ a))).drop 3,
           ?_, ?_, ?_, hsum3⟩, ?_, ?_⟩
  · rw [List.take_append_drop]
    exact hperm
  · rw [List.length_take, hlen]
  · intro x hx y hy
    have hpw2 : List.Pairwise (fun a b => decide (b ≤ a) = true)
        (((inventories.map (fun inv => inv.sum)).mergeSort
          (fun a b => decide (b ≤ a))).take 3 ++
         ((inventories.map (fun inv => inv.sum)).mergeSort
          (fun a b => decide (b ≤ a))).drop 3) := by
      rw [List.take_append_drop]
      exact hpw
    obtain ⟨-, -, hcross⟩ := List.pairwise_append.mp hpw2
    simpa using hcross x hx y hy
  · intro hlt
    rw [hsum3, List.take_of_length_le (by omega)]
    exact (List.Perm.sum_eq hperm).symm
  · intro hnil
    subst hnil
    simp [sum_of_top_three_calories]

/-- C3 witness: two inventories with sums 5 and 10 give 15, and the
decomposition exists for the five example inventories. -/
theorem claim_C3_witness :
    (([[5], [10]] : List (List Int)).length < 3 ∧
      sum_of_top_three_calories [[5], [10]] = 15) ∧
    ([] : List (List Int)) = [] ∧ sum_of_top_three_calories [] = 0 := by
  refine ⟨⟨by decide, ?_⟩, rfl, (claim_C3 []).2.2 rfl⟩
  have h := (claim_C3 [[5], [10]]).2.1 (by decide)
  simpa using h

/-- The inventory parser as the specification words it: split the full
text on the two-newline sequence, trim each group's surrounding
whitespace, split each group on single newlines, and parse each resulting
line as an integer, preserving group order and line order. -/
def parse_inventories_spec (text : List Char) : Option (List (List Int)) :=
  (splitOnNN text).mapM
    (fun g => (splitOnChar '\n' (pyStrip g)).mapM pyInt)

/-- C7: `parse_inventories` coincides with the specification's
description, and a successful parse has one inventory per group, the
`i`-th inventory being the integer parse of the `i`-th group's trimmed
lines. -/
theorem claim_C7 (text : List Char) :
    parse_inventories text = parse_inventories_spec text ∧
    ∀ res, parse_inventories text = some res →
      res.length = (splitOnNN text).length ∧
      ∀ i (hg : i < (splitOnNN text).length) (hr : i < res.length),
        (splitOnChar '\n' (pyStrip ((splitOnNN text).get ⟨i, hg⟩))).mapM pyInt =
          some (res.get ⟨i, hr⟩) := by
  refine ⟨rfl, ?_⟩
  intro res hres
  obtain ⟨hlen, hget⟩ := mapM_option_some_spec _ _ res hres
  exact ⟨hlen, fun i hg hr => hget i hg hr⟩

/-- C7 witness: a concrete two-group input, parsed and checked
group-by-group. -/
theorem claim_C7_witness :
    parse_inventories ("1\n2\n\n3\n".toList) =
      parse_inventories_spec ("1\n2\n\n3\n".toList) ∧
    ([[1, 2], [3]] : List (List Int)).length =
      (splitOnNN ("1\n2\n\n3\n".toList)).length :=
  ⟨(claim_C7 ("1\n2\n\n3\n".toList)).1,
   ((claim_C7 ("1\n2\n\n3\n".toList)).2 [[1, 2], [3]] (by decide)).1⟩

/-- C8: when the final group of the input text is empty after trimming
(for instance because the text ends in two consecutive newline
sequences), `parse_inventories` tries to parse the empty string as an
integer, which fails, so the whole parse fails; the empty trailing group
is not skipped. -/
theorem claim_C8 (text : List Char) (g : List Char)
    (hlast : (splitOnNN text).getLast? = some g) (hempty : pyStrip g = []) :
    pyInt [] = none ∧ parse_inventories text = none := by
  refine ⟨by decide, ?_⟩
  have hmem : g ∈ splitOnNN text := by
    obtain ⟨hne, hg⟩ := List.mem_getLast?_eq_getLast (Option.mem_def.mpr hlast)
    rw [hg]
    exact List.getLast_mem hne
  apply mapM_option_none_of_mem _ _ g hmem
  rw [hempty]
  decide

/-- C8 witness: the text `1000\n\n` ends in an empty trailing group and
fails to parse. -/
theorem claim_C8_witness :
    pyInt [] = none ∧ parse_inventories ("1000\n\n".toList) = none :=
  claim_C8 ("1000\n\n".toList) [] (by decide) (by decide)

/-- `_str_to_assignments_list` depends only on the first two
comma-separated fields of the stripped line. -/
lemma assignments_list_eq (line a b : List Char) (r : List (List Char))
    (h : splitOnChar ',' (pyStrip line) = a :: b :: r) :
    _str_to_assignments_list line =
      (match _str_to_assignment a, _str_to_assignment b with
       | some x, some y => some (x, y)
       | _, _ => none) := by
  simp only [_str_to_assignments_list, h]

/-- `_str_to_assignment` fails when the field does not split into exactly
two hyphen-separated parts. -/
lemma str_to_assignment_none_of_len (s : List Char)
    (h : (splitOnChar '-' s).length ≠ 2) : _str_to_assignment s = none := by
  simp only [_str_to_assignment]
  split
  · next a b heq => exact absurd (by rw [heq]; rfl) h
  · rfl

/-- `_str_to_assignment` fails when either hyphen-separated part is not a
valid integer literal. -/
lemma str_to_assignment_none_of_badInt (s p q : List Char)
    (h : splitOnChar '-' s = [p, q]) (hb : pyInt p = none ∨ pyInt q = none) :
    _str_to_assignment s = none := by
  simp only [_str_to_assignment, h]
  rcases hp : pyInt p with _ | x <;> rcases hq : pyInt q with _ | y <;>
    simp_all

/-- `_str_to_assignments_list` fails when the parse of either of the
first two fields fails. -/
lemma assignments_list_none (line a b : List Char) (r : List (List Char))
    (h : splitOnChar ',' (pyStrip line) = a :: b :: r)
    (hn : _str_to_assignment a = none ∨ _str_to_assignment b = none) :
    _str_to_assignments_list line = none := by
  rw [assignments_list_eq line a b r h]
  rcases ha : _str_to_assignment a with _ | x <;>
    rcases hb : _str_to_assignment b with _ | y <;> simp_all

/-- `_str_to_assignments_list` fails when the stripped line has fewer
than two comma-separated fields. -/
lemma assignments_list_none_of_short (line : List Char)
    (h : (splitOnChar ',' (pyStrip line)).length < 2) :
    _str_to_assignments_list line = none := by
  simp only [_str_to_assignments_list]
  split
  · next a b r heq => exfalso; rw [heq] at h; simp at h; omega
  · rfl

/-- C6: `parse_section_assignments` keeps only the first two
comma-separated fields of each line (extra fields do not affect the
result), and it fails when some line has fewer than two comma-separated
fields, when one of its first two fields does not split into exactly two
hyphen-separated parts, or when such a part is not a valid integer
literal. -/
theorem claim_C6 :
    (∀ line line' (a b : List Char) r r',
       splitOnChar ',' (pyStrip line) = a :: b :: r →
       splitOnChar ',' (pyStrip line') = a :: b :: r' →
       _str_to_assignments_list line = _str_to_assignments_list line') ∧
    (∀ (lines : List (List Char)) line, line ∈ lines →
       (splitOnChar ',' (pyStrip line)).length < 2 →
       parse_section_assignments lines = none) ∧
    (∀ (lines : List (List Char)) line (a b : List Char) r, line ∈ lines →
       splitOnChar ',' (pyStrip line) = a :: b :: r →
       ((splitOnChar '-' a).length ≠ 2 ∨ (splitOnChar '-' b).length ≠ 2) →
       parse_section_assignments lines = none) ∧
    (∀ (lines : List (List Char)) line (a b : List Char) r (p q : List Char),
       line ∈ lines →
       splitOnChar ',' (pyStrip line) = a :: b :: r →
       ((splitOnChar '-' a = [p, q] ∧ (pyInt p = none ∨ pyInt q = none)) ∨
        (splitOnChar '-' b = [p, q] ∧ (pyInt p = none ∨ pyInt q = none))) →
       parse_section_assignments lines = none) := by
  refine ⟨?_, ?_, ?_, ?_⟩
  · intro line line' a b r r' h h'
    rw [assignments_list_eq line a b r h, assignments_list_eq line' a b r' h']
  · intro lines line hmem hshort
    exact mapM_option_none_of_mem _ lines line hmem
      (assignments_list_none_of_short line hshort)
  · intro lines line a b r hmem hsplit hbad
    refine mapM_option_none_of_mem _ lines line hmem
      (assignments_list_none line a b r hsplit ?_)
    rcases hbad with hbad | hbad
    · exact Or.inl (str_to_assignment_none_of_len a hbad)
    · exact Or.inr (str_to_assignment_none_of_len b hbad)
  · intro lines line a b r p q hmem hsplit hbad
    refine mapM_option_none_of_mem _ lines line hmem
      (assignments_list_none line a b r hsplit ?_)
    rcases hbad with ⟨heq, hint⟩ | ⟨heq, hint⟩
    · exact Or.inl (str_to_assignment_none_of_badInt a p q heq hint)
    · exact Or.inr (str_to_assignment_none_of_badInt b p q heq hint)

/-- C6 witness: extra fields on a line are discarded; a line with one
field, a field with three hyphen parts, and a field with a non-numeric
bound each make the parse fail. -/
theorem claim_C6_witness :
    _str_to_assignments_list ("2-4,6-8,9-10\n".toList) =
      _str_to_assignments_list ("2-4,6-8\n".toList) ∧
    parse_section_assignments ["2-4".toList] = none ∧
    parse_section_assignments ["2-4-5,6-8".toList] = none ∧
    parse_section_assignments ["2-x,6-8".toList] = none :=
  ⟨claim_C6.1 ("2-4,6-8,9-10\n".toList) ("2-4,6-8\n".toList)
     ("2-4".toList) ("6-8".toList) ["9-10".toList] [] (by decide) (by decide),
   claim_C6.2.1 ["2-4".toList] ("2-4".toList) (List.mem_cons_self _ _)
     (by decide),
   claim_C6.2.2.1 ["2-4-5,6-8".toList] ("2-4-5,6-8".toList) ("2-4-5".toList)
     ("6-8".toList) [] (List.mem_cons_self _ _) (by decide)
     (Or.inl (by decide)),
   claim_C6.2.2.2 ["2-x,6-8".toList] ("2-x,6-8".toList) ("2-x".toList)
     ("6-8".toList) [] ("2".toList) ("x".toList) (List.mem_cons_self _ _)
     (by decide) (Or.inl ⟨by decide, Or.inr (by decide)⟩)⟩

/-! ### Decimal rendering round-trip -/

/-- The ten decimal digit characters. -/
def DigitChars : List Char := ['0', '1', '2', '3', '4', '5', '6', '7', '8', '9']

lemma digitChar_mem (d : Nat) (h : d < 10) : Nat.digitChar d ∈ DigitChars := by
  interval_cases d <;> decide

lemma digitChar_val (d : Nat) (h : d < 10) : (Nat.digitChar d).toNat - 48 = d := by
  interval_cases d <;> decide

lemma digit_char_facts (c : Char) (h : c ∈ DigitChars) :
    c.isDigit = true ∧ c ≠ '-' ∧ c ≠ '+' ∧ c.isWhitespace = false := by
  fin_cases h <;> exact ⟨by decide, by decide, by decide, by decide⟩

lemma renderNatCore_acc (fuel : Nat) :
    ∀ (n : Nat) (acc : List Char),
      renderNatCore fuel n acc = renderNatCore fuel n [] ++ acc := by
  induction fuel with
  | zero => intro n acc; rfl
  | succ f ih =>
    intro n acc
    by_cases h : n < 10
    · simp [renderNatCore, h]
    · simp only [renderNatCore, if_neg h]
      rw [ih (n / 10) (Nat.digitChar (n % 10) :: acc),
        ih (n / 10) [Nat.digitChar (n % 10)], List.append_assoc]
      rfl

lemma renderNatCore_fuel (n : Nat) :
    ∀ fuel, n < fuel → renderNatCore fuel n [] = renderNat n := by
  induction n using Nat.strong_induction_on with
  | _ n ih =>
    intro fuel hfuel
    cases fuel with
    | zero => exact absurd hfuel (Nat.not_lt_zero n)
    | succ f =>
      by_cases h : n < 10
      · simp [renderNat, renderNatCore, h]
      · have hdiv : n / 10 < n := Nat.div_lt_self (by omega) (by omega)
        simp only [renderNat, renderNatCore, if_neg h]
        rw [renderNatCore_acc f (n / 10), renderNatCore_acc n (n / 10),
          ih (n / 10) hdiv f (by omega), ih (n / 10) hdiv n (by omega)]

lemma renderNat_lt (n : Nat) (h : n < 10) : renderNat n = [Nat.digitChar n] := by
  simp [renderNat, renderNatCore, h]

lemma renderNat_ge (n : Nat) (h : ¬n < 10) :
    renderNat n = renderNat (n / 10) ++ [Nat.digitChar (n % 10)] := by
  have hdiv : n / 10 < n := Nat.div_lt_self (by omega) (by omega)
  conv_lhs => rw [renderNat]
  simp only [renderNatCore, if_neg h]
  rw [renderNatCore_acc n (n / 10), renderNatCore_fuel (n / 10) n (by omega)]

lemma renderNat_mem (n : Nat) : ∀ c ∈ renderNat n, c ∈ DigitChars := by
  induction n using Nat.strong_induction_on with
  | _ n ih =>
    intro c hc
    by_cases h : n < 10
    · rw [renderNat_lt n h] at hc
      rcases List.mem_singleton.mp hc with rfl
      exact digitChar_mem n h
    · rw [renderNat_ge n h] at hc
      rcases List.mem_append.mp hc with hc | hc
      · exact ih (n / 10) (Nat.div_lt_self (by omega) (by omega)) c hc
      · rcases List.mem_singleton.mp hc with rfl
        exact digitChar_mem (n % 10) (Nat.mod_lt n (by omega))

lemma renderNat_ne_nil (n : Nat) : renderNat n ≠ [] := by
  by_cases h : n < 10
  · rw [renderNat_lt n h]; simp
  · rw [renderNat_ge n h]; simp

lemma renderNat_val (n : Nat) :
    ∀ a : Nat, (renderNat n).foldl (fun acc c => 10 * acc + (c.toNat - 48)) a =
      a * 10 ^ (renderNat n).length + n := by
  induction n using Nat.strong_induction_on with
  | _ n ih =>
    intro a
    by_cases h : n < 10
    · rw [renderNat_lt n h]
      simp [List.foldl_cons, digitChar_val n h]
      ring
    · rw [renderNat_ge n h]
      rw [List.foldl_append, List.length_append]
      rw [ih (n / 10) (Nat.div_lt_self (by omega) (by omega)) a]
      simp [List.foldl_cons, digitChar_val (n % 10) (Nat.mod_lt n (by omega))]
      rw [pow_succ]
      have : 10 * (n / 10) + n % 10 = n := Nat.div_add_mod n 10
      ring_nf
      omega

lemma pyDigitsVal_renderNat (n : Nat) : pyDigitsVal (renderNat n) = n := by
  have := renderNat_val n 0
  simpa [pyDigitsVal] using this

lemma dropWhile_no_sat {p : Char → Bool} :
    ∀ cs : List Char, (∀ c ∈ cs, p c = false) → cs.dropWhile p = cs := by
  intro cs h
  cases cs with
  | nil => rfl
  | cons c t =>
    rw [List.dropWhile_cons, if_neg]
    simp [h c (List.mem_cons_self c t)]

lemma pyStrip_no_ws (cs : List Char)
    (h : ∀ c ∈ cs, c.isWhitespace = false) : pyStrip cs = cs := by
  unfold pyStrip
  rw [dropWhile_no_sat cs h,
    dropWhile_no_sat cs.reverse (fun c hc => h c (List.mem_reverse.mp hc)),
    List.reverse_reverse]

lemma pyInt_renderNat (n : Nat) : pyInt (renderNat n) = some (n : ℤ) := by
  have hmem := renderNat_mem n
  have hstrip : pyStrip (renderNat n) = renderNat n :=
    pyStrip_no_ws _ (fun c hc => (digit_char_facts c (hmem c hc)).2.2.2)
  simp only [pyInt, hstrip]
  split
  · next rest heq =>
    exfalso
    have : '-' ∈ renderNat n := by rw [heq]; exact List.mem_cons_self _ _
    exact (digit_char_facts '-' (hmem '-' this)).2.1 rfl
  · next rest heq =>
    exfalso
    have : '+' ∈ renderNat n := by rw [heq]; exact List.mem_cons_self _ _
    exact (digit_char_facts '+' (hmem '+' this)).2.2.1 rfl
  · next cs hne1 hne2 =>
    rw [if_pos]
    · rw [pyDigitsVal_renderNat]
    · exact ⟨renderNat_ne_nil n,
        List.all_eq_true.mpr
          (fun c hc => (digit_char_facts c (hmem c hc)).1)⟩

lemma splitOnChar_no_sep (sep : Char) :
    ∀ ys : List Char, sep ∉ ys → splitOnChar sep ys = [ys] := by
  intro ys
  induction ys with
  | nil => intro _; rfl
  | cons c t ih =>
    intro h
    have hc : ¬c = sep := fun hcs => h (hcs ▸ List.mem_cons_self c t)
    rw [splitOnChar, if_neg hc, ih (fun hm => h (List.mem_cons_of_mem c hm))]

lemma splitOnChar_pair (sep : Char) :
    ∀ xs ys : List Char, sep ∉ xs → sep ∉ ys →
      splitOnChar sep (xs ++ sep :: ys) = [xs, ys] := by
  intro xs
  induction xs with
  | nil =>
    intro ys _ hy
    rw [List.nil_append, splitOnChar, if_pos rfl, splitOnChar_no_sep sep ys hy]
  | cons c t ih =>
    intro ys hx hy
    have hc : ¬c = sep := fun hcs => hx (hcs ▸ List.mem_cons_self c t)
    rw [List.cons_append, splitOnChar, if_neg hc,
      ih ys (fun hm => hx (List.mem_cons_of_mem c hm)) hy]

lemma Icc_min'_eq (s e : ℤ) (h : s ≤ e) :
    (Finset.Icc s e).min' (Finset.nonempty_Icc.mpr h) = s :=
  le_antisymm
    (Finset.min'_le _ s (Finset.mem_Icc.mpr ⟨le_refl s, h⟩))
    (Finset.le_min' _ _ s (fun y hy => (Finset.mem_Icc.mp hy).1))

lemma Icc_max'_eq (s e : ℤ) (h : s ≤ e) :
    (Finset.Icc s e).max' (Finset.nonempty_Icc.mpr h) = e :=
  le_antisymm
    (Finset.max'_le _ _ e (fun y hy => (Finset.mem_Icc.mp hy).2))
    (Finset.le_max' _ e (Finset.mem_Icc.mpr ⟨h, le_refl e⟩))

/-- C5 (amended): for all integers `0 ≤ s ≤ e`, parsing the decimal
rendering `s-e` as a range field yields the set of integers from `s` to
`e`, whose minimum element is exactly `s` and whose maximum element is
exactly `e`.  (For negative `s` the rendering starts with a hyphen, the
field splits into more than two hyphen-separated parts, and the parse
fails, so the non-negativity bound is necessary.) -/
theorem claim_C5 (s e : ℤ) (hs : 0 ≤ s) (hse : s ≤ e) :
    _str_to_assignment (renderInt s ++ '-' :: renderInt e) =
      some (Finset.Icc s e) ∧
    (Finset.Icc s e).min' (Finset.nonempty_Icc.mpr hse) = s ∧
    (Finset.Icc s e).max' (Finset.nonempty_Icc.mpr hse) = e := by
  have he : (0 : ℤ) ≤ e := le_trans hs hse
  have hrs : renderInt s = renderNat s.toNat := if_neg (by omega)
  have hre : renderInt e = renderNat e.toNat := if_neg (by omega)
  have hnos : '-' ∉ renderNat s.toNat := fun hm =>
    (digit_char_facts '-' (renderNat_mem s.toNat '-' hm)).2.1 rfl
  have hnoe : '-' ∉ renderNat e.toNat := fun hm =>
    (digit_char_facts '-' (renderNat_mem e.toNat '-' hm)).2.1 rfl
  have hsplit : splitOnChar '-' (renderInt s ++ '-' :: renderInt e) =
      [renderNat s.toNat, renderNat e.toNat] := by
    rw [hrs, hre]
    exact splitOnChar_pair '-' _ _ hnos hnoe
  refine ⟨?_, Icc_min'_eq s e hse, Icc_max'_eq s e hse⟩
  simp only [_str_to_assignment, hsplit, pyInt_renderNat,
    Int.toNat_of_nonneg hs, Int.toNat_of_nonneg he]

/-- C5 counterexample: at `s = -1 ≤ 0 = e` the claim fails, because the
rendered field `-1-0` splits on hyphens into three parts and the parse
returns no set at all. -/
theorem claim_C5_counterexample :
    (-1 : ℤ) ≤ 0 ∧
    _str_to_assignment (renderInt (-1) ++ '-' :: renderInt 0) = none := by
  constructor
  · norm_num
  · decide

/-- C5 witness: the amended theorem at `s = 2`, `e = 4`. -/
theorem claim_C5_witness :
    _str_to_assignment (renderInt 2 ++ '-' :: renderInt 4) =
      some (Finset.Icc 2 4) ∧
    (Finset.Icc (2 : ℤ) 4).min' (Finset.nonempty_Icc.mpr (by norm_num)) = 2 ∧
    (Finset.Icc (2 : ℤ) 4).max' (Finset.nonempty_Icc.mpr (by norm_num)) = 4 :=
  claim_C5 2 4 (by norm_num) (by norm_num)

end AoC2022
